import Mathlib

/-!
Verification of the `State`/`Signal` reactive store (`packages/state/src/state.ts`).

The embedding models JavaScript values shallowly: a value is `undefined`, a
primitive (numbers, compared by value as `Object.is` does), or an object.
An object carries an allocation identifier (its reference identity: two
objects are `Object.is`-equal iff they are the same allocation) together with
its own enumerable fields in insertion order.  Fresh allocations are modelled
by threading an explicit counter: every newly constructed object receives the
current counter value as its identity.

Subscriber callbacks are inert and identified by numeric labels; every
dispatch appends to an event trace recording which events were emitted and
which signal invoked which subscriber, in order.
-/

inductive JSVal where
  | undef : JSVal
  | prim : Nat → JSVal
  | obj : Nat → List (String × JSVal) → JSVal

/-- Model of `Object.is`: primitives by value, objects by reference identity. -/
def jsIs : JSVal → JSVal → Bool
  | JSVal.undef, JSVal.undef => true
  | .prim m, .prim n => m == n
  | .obj i _, .obj j _ => i == j
  | _, _ => false

/-- Lookup of an own property in a field list (`undefined` when absent). -/
def lookupField : List (String × JSVal) → String → JSVal
  | [], _ => JSVal.undef
  | (k', v) :: rest, k => if k' = k then v else lookupField rest k

/-- Property read `v[k]`. -/
def getField : JSVal → String → JSVal
  | .obj _ fs, k => lookupField fs k
  | _, _ => JSVal.undef

/-- Model of `Reflect.has(v, k)`: key presence (a field explicitly set to
`undefined` still counts as present). -/
def hasField : JSVal → String → Bool
  | .obj _ fs, k => fs.any (fun p => p.1 == k)
  | _, _ => false

/-- Own enumerable keys in insertion order (`Object.keys` / `for..in` for
plain objects). -/
def objKeys : JSVal → List String
  | .obj _ fs => fs.map (fun p => p.1)
  | _ => []

/-- The own fields of an object value. -/
def objFields : JSVal → List (String × JSVal)
  | .obj _ fs => fs
  | _ => []

/-- The `shallowCompare` helper from `state.ts`: `Object.is` first; for two objects,
equal key counts and every key of `a` present on `b` with `Object.is`-equal
values; otherwise `Object.is`. -/
def shallowCompare (a b : JSVal) : Bool :=
  if jsIs a b then true
  else
    match a, b with
    | .obj _ fsa, .obj ib fsb =>
      let keysA := fsa.map (fun p => p.1)
      let keysB := fsb.map (fun p => p.1)
      if keysA.length != keysB.length then false
      else keysA.all (fun k =>
        hasField (.obj ib fsb) k && jsIs (lookupField fsa k) (lookupField fsb k))
    | _, _ => jsIs a b

/-- Selector functions, as the syntactic shapes the specification's claims
quantify over.  `whole` is `s => s`; `field k` is `s => s.k`; `constPrim n`
is `s => n`; `readFresh ks` reads each key in `ks` off the state and returns
a newly allocated empty array. -/
inductive Selector where
  | whole : Selector
  | field : String → Selector
  | constPrim : Nat → Selector
  | readFresh : List String → Selector
deriving DecidableEq

/-- Apply a selector to a (real, unproxied) state.  Returns the value and
the advanced allocation counter. -/
def Selector.eval : Selector → JSVal → Nat → JSVal × Nat
  | .whole, s, c => (s, c)
  | .field k, s, c => (getField s k, c)
  | .constPrim n, _, c => (.prim n, c)
  | .readFresh _, _, c => (.obj c [], c + 1)

/-- Apply a selector to the read-tracking proxy over the state.  The proxy
delegates every property read to the target, so the only difference from
`Selector.eval` is the identity-selector case: `s => s` returns the proxy
object itself, a distinct allocation whose fields mirror the target's. -/
def Selector.evalProxy : Selector → JSVal → Nat → JSVal × Nat
  | .whole, s, c => (.obj c (objFields s), c + 1)
  | sel, s, c => Selector.eval sel s c

/-- Insertion-order deduplication with an accumulator of already-seen
keys, as a JS `Set` does (first occurrence kept). -/
def dedupFirstAux (seen : List String) : List String → List String
  | [] => []
  | k :: ks => if k ∈ seen then dedupFirstAux seen ks
               else k :: dedupFirstAux (k :: seen) ks

/-- Insertion-order deduplication, as a JS `Set` does (first occurrence
kept). -/
def dedupFirst (l : List String) : List String :=
  dedupFirstAux [] l

/-- The dependency keys the proxy records during the discovery pass: every
property the selector reads, kept only when `Reflect.has(target, prop)`
holds, deduplicated in first-read order. -/
def Selector.deps : Selector → JSVal → List String
  | .whole, _ => []
  | .field k, s => if hasField s k then [k] else []
  | .constPrim _, _ => []
  | .readFresh ks, s => dedupFirst (ks.filter (fun k => hasField s k))

/-- The `SignalOpts` options record from `state.ts`. -/
structure SignalOpts where
  shallowCompare : Bool
deriving DecidableEq

/-- A `Signal`: cached value, selector, options, and subscriber labels in
subscription order. -/
structure Signal where
  value : JSVal
  selector : Selector
  opts : SignalOpts
  subscriptions : List Nat

/-- Reading `Signal#valueOf`. -/
def Signal.valueOf (sg : Signal) : JSVal :=
  sg.value

/-- Model of `Signal#subscribe`: push the listener onto the subscription list. -/
def Signal.subscribe (sg : Signal) (listener : Nat) : Signal :=
  { sg with subscriptions := sg.subscriptions ++ [listener] }

/-- Result of `Signal#notify`: the updated signal, the advanced allocation
counter, and the subscriber labels invoked, in order. -/
structure NotifyResult where
  sg : Signal
  fresh : Nat
  calls : List Nat

/-- Model of `Signal#notify` from `state.ts`:

```
const oldValue = this.#value
const newValue = this.#selector(newState)
if (!this.#opts.shallowCompare || !shallowCompare(oldValue, newValue)) {
  this.#value = newValue
  this.#subscriptions.forEach(subscription => subscription())
}
```
-/
def Signal.notify (sg : Signal) (newState : JSVal) (c : Nat) : NotifyResult :=
  let oldValue := sg.value
  let r := Selector.eval sg.selector newState c
  if !sg.opts.shallowCompare || !shallowCompare oldValue r.1 then
    ⟨{ sg with value := r.1 }, r.2, sg.subscriptions⟩
  else
    ⟨sg, r.2, []⟩

/-- Event types dispatched on the store's `EventTarget`: the generic
`'change'` event and the per-key `'change:k'` events (`#propEventKey`). -/
inductive Trigger where
  | change : Trigger
  | key : String → Trigger
deriving DecidableEq

/-- Observable trace entries: an event being dispatched, and a signal
(identified by its index) invoking one of its subscribers (identified by
its label). -/
inductive Ev where
  | emit : Trigger → Ev
  | call : Nat → Nat → Ev
deriving DecidableEq

/-- The store. `state` is `#state`; `listeners` are the `EventTarget`
registrations in registration order, each pairing the event type with the
index of the signal whose `notify` the registered closure invokes;
`signals` holds every signal created by `select`, in creation order;
`fresh` is the allocation counter. -/
structure State where
  state : JSVal
  listeners : List (Trigger × Nat)
  signals : List Signal
  fresh : Nat

/-- Construction `new State(initialState)`. -/
def State.mk0 (initialState : JSVal) (fresh : Nat) : State :=
  ⟨initialState, [], [], fresh⟩

structure DispatchResult where
  signals : List Signal
  fresh : Nat
  evs : List Ev

/-- Run the registered listeners matching event `t`, in registration order.
Each matching listener is the closure `() => signal.notify(this.#state)`,
so it invokes `notify` on its signal with the store's current state. -/
def runListeners (t : Trigger) (st : JSVal) :
    List (Trigger × Nat) → List Signal → Nat → DispatchResult
  | [], sigs, c => ⟨sigs, c, []⟩
  | (t', j) :: rest, sigs, c =>
    if t' = t then
      match sigs[j]? with
      | some sg =>
        let r := Signal.notify sg st c
        let r' := runListeners t st rest (sigs.set j r.sg) r.fresh
        ⟨r'.signals, r'.fresh, r.calls.map (fun l => Ev.call j l) ++ r'.evs⟩
      | none => runListeners t st rest sigs c
    else runListeners t st rest sigs c

/-- Model of `dispatchEvent(new Event(t))`: the emission followed by the matching
listeners' effects. -/
def State.dispatchEvent (s : State) (t : Trigger) : State × List Ev :=
  let r := runListeners t s.state s.listeners s.signals s.fresh
  ({ s with signals := r.signals, fresh := r.fresh }, Ev.emit t :: r.evs)

/-- The `for (const key in this.#state)` loop of `State#set`: for each key
of the (live, current) state, dispatch `change:key` iff the value differs
from the old state's by `Object.is`. -/
def setLoop (oldState : JSVal) : State → List String → State × List Ev
  | s, [] => (s, [])
  | s, k :: ks =>
    if !jsIs (getField s.state k) (getField oldState k) then
      let r := State.dispatchEvent s (Trigger.key k)
      let r' := setLoop oldState r.1 ks
      (r'.1, r.2 ++ r'.2)
    else
      setLoop oldState s ks

/-- An updater passed to `set`: receives the state and the allocation
counter, returns the new state and advanced counter, or `none` when it
throws. -/
abbrev Updater := JSVal → Nat → Option (JSVal × Nat)

/-- Result of `State#set`: the store afterwards, the event trace, and
whether the call threw. -/
structure SetResult where
  store : State
  evs : List Ev
  threw : Bool

/-- Model of `State#set` from `state.ts`:

```
const oldState = this.#state
this.#state = updater(this.#state)
this.dispatchEvent(new Event('change'))
for (const key in this.#state) {
  if (!Object.is(this.#state[key], oldState[key])) {
    this.dispatchEvent(new Event(this.#propEventKey(key)))
  }
}
```

When the updater throws, the assignment never happens: the store is
unchanged, nothing is dispatched, and the exception propagates (`threw`).
-/
def State.set (s : State) (u : Updater) : SetResult :=
  match u s.state s.fresh with
  | none => ⟨s, [], true⟩
  | some (ns, c') =>
    let oldState := s.state
    let s1 : State := { s with state := ns, fresh := c' }
    let r := State.dispatchEvent s1 Trigger.change
    let r' := setLoop oldState r.1 (objKeys r.1.state)
    ⟨r'.1, r.2 ++ r'.2, false⟩

/-- Model of `State#select` from `state.ts`: discover the dependency keys with the
proxy, compute the initial value from the same invocation, construct the
signal with resolved options (`shallowCompare` defaults to `true`), then
register a `change` listener when no keys were recorded and one
`change:key` listener per recorded key.  Returns the index of the new
signal. -/
def State.select (s : State) (sel : Selector) (opts0 : Option Bool) : State × Nat :=
  let signalOpts : SignalOpts := ⟨opts0.getD true⟩
  let keys := Selector.deps sel s.state
  let r := Selector.evalProxy sel s.state s.fresh
  let i := s.signals.length
  let newListeners :=
    (if keys.isEmpty then [(Trigger.change, i)] else []) ++
      keys.map (fun k => (Trigger.key k, i))
  ({ s with
      listeners := s.listeners ++ newListeners,
      signals := s.signals ++ [⟨r.1, sel, signalOpts, []⟩],
      fresh := r.2 }, i)

/-- Calling `signal.subscribe(listener)` for the signal at index `i`. -/
def State.subscribeAt (s : State) (i : Nat) (listener : Nat) : State :=
  match s.signals[i]? with
  | some sg => { s with signals := s.signals.set i (sg.subscribe listener) }
  | none => s

/-- Reading `signal.valueOf()` for the signal at index `i`. -/
def State.signalValue (s : State) (i : Nat) : JSVal :=
  match s.signals[i]? with
  | some sg => sg.valueOf
  | none => JSVal.undef

/-- How many times the signal at index `i` invoked one of its subscribers
in the trace. -/
def callsTo (i : Nat) (evs : List Ev) : Nat :=
  evs.countP (fun e => match e with | .call j _ => j == i | _ => false)

/-- All listener registrations point at existing signals (true of every
store reachable through the API). -/
def listenersBounded (s : State) : Prop :=
  ∀ p ∈ s.listeners, p.2 < s.signals.length

/-- Extract the key of a per-key emission event. -/
def emittedKey : Ev → Option String
  | .emit (.key k) => some k
  | _ => none

/-! ### Basic lemmas -/

theorem jsIs_symm (a b : JSVal) : jsIs a b = jsIs b a := by
  cases a <;> cases b <;> simp [jsIs, Nat.beq_eq, eq_comm]

theorem shallowCompare_of_jsIs {a b : JSVal} (h : jsIs a b = true) :
    shallowCompare a b = true := by
  simp [shallowCompare, h]

theorem callsTo_nil (i : Nat) : callsTo i [] = 0 := rfl

theorem callsTo_append (i : Nat) (l₁ l₂ : List Ev) :
    callsTo i (l₁ ++ l₂) = callsTo i l₁ + callsTo i l₂ :=
  List.countP_append _ _ _

theorem callsTo_map_call (i j : Nat) (calls : List Nat) :
    callsTo i (calls.map (fun l => Ev.call j l)) =
      if j = i then calls.length else 0 := by
  induction calls with
  | nil => simp [callsTo]
  | cons c cs ih =>
    simp only [List.map_cons, callsTo, List.countP_cons] at ih ⊢
    by_cases h : j = i <;> simp [h, Nat.beq_eq] at ih ⊢

theorem callsTo_emit (i : Nat) (t : Trigger) (l : List Ev) :
    callsTo i (Ev.emit t :: l) = callsTo i l := by
  simp [callsTo, List.countP_cons]

/-! ### `runListeners` lemmas -/

theorem runListeners_nil (t : Trigger) (st : JSVal) (sigs : List Signal) (c : Nat) :
    runListeners t st [] sigs c = ⟨sigs, c, []⟩ := rfl

theorem runListeners_signals_length (t : Trigger) (st : JSVal)
    (ls : List (Trigger × Nat)) (sigs : List Signal) (c : Nat) :
    (runListeners t st ls sigs c).signals.length = sigs.length := by
  induction ls generalizing sigs c with
  | nil => rfl
  | cons p rest ih =>
    obtain ⟨t', j⟩ := p
    by_cases h : t' = t
    · rcases hj : sigs[j]? with _ | sg
      · simp [runListeners, h, hj, ih]
      · simp [runListeners, h, hj, ih, List.length_set]
    · simp [runListeners, h, ih]

theorem runListeners_noHit (t : Trigger) (st : JSVal)
    (ls : List (Trigger × Nat)) (sigs : List Signal) (c : Nat) (i : Nat)
    (h : ∀ p ∈ ls, p.1 = t → p.2 ≠ i) :
    (runListeners t st ls sigs c).signals[i]? = sigs[i]? ∧
      callsTo i (runListeners t st ls sigs c).evs = 0 := by
  induction ls generalizing sigs c with
  | nil => simp [runListeners_nil, callsTo_nil]
  | cons p rest ih =>
    obtain ⟨t', j⟩ := p
    have hrest : ∀ p ∈ rest, p.1 = t → p.2 ≠ i := fun p hp => h p (List.mem_cons_of_mem _ hp)
    by_cases ht : t' = t
    · have hji : j ≠ i := h (t', j) (List.mem_cons_self _ _) ht
      rcases hj : sigs[j]? with _ | sg
      · simpa [runListeners, ht, hj] using ih _ _ hrest
      · have := ih (sigs.set j (Signal.notify sg st c).sg) (Signal.notify sg st c).fresh hrest
        simp only [runListeners, ht, if_true, hj] at *
        refine ⟨?_, ?_⟩
        · rw [this.1, List.getElem?_set_ne hji]
        · rw [callsTo_append, this.2, callsTo_map_call]
          simp [hji]
    · simpa [runListeners, ht] using ih _ _ hrest

theorem runListeners_append (t : Trigger) (st : JSVal)
    (l₁ l₂ : List (Trigger × Nat)) (sigs : List Signal) (c : Nat) :
    runListeners t st (l₁ ++ l₂) sigs c =
      ⟨(runListeners t st l₂ (runListeners t st l₁ sigs c).signals
          (runListeners t st l₁ sigs c).fresh).signals,
        (runListeners t st l₂ (runListeners t st l₁ sigs c).signals
          (runListeners t st l₁ sigs c).fresh).fresh,
        (runListeners t st l₁ sigs c).evs ++
          (runListeners t st l₂ (runListeners t st l₁ sigs c).signals
            (runListeners t st l₁ sigs c).fresh).evs⟩ := by
  induction l₁ generalizing sigs c with
  | nil => simp [runListeners_nil]
  | cons p rest ih =>
    obtain ⟨t', j⟩ := p
    by_cases ht : t' = t
    · rcases hj : sigs[j]? with _ | sg
      · simp [runListeners, ht, hj, ih]
      · simp [runListeners, ht, hj, ih, List.append_assoc]
    · simp [runListeners, ht, ih]

theorem runListeners_singleton_hit (t : Trigger) (st : JSVal)
    (i : Nat) (sigs : List Signal) (c : Nat) (sg : Signal)
    (hget : sigs[i]? = some sg) :
    runListeners t st [(t, i)] sigs c =
      ⟨sigs.set i (Signal.notify sg st c).sg, (Signal.notify sg st c).fresh,
        (Signal.notify sg st c).calls.map (fun l => Ev.call i l)⟩ := by
  simp [runListeners, hget]

/-! ### `dispatchEvent` lemmas -/

theorem dispatchEvent_state (s : State) (t : Trigger) :
    (s.dispatchEvent t).1.state = s.state := rfl

theorem dispatchEvent_listeners (s : State) (t : Trigger) :
    (s.dispatchEvent t).1.listeners = s.listeners := rfl

theorem dispatchEvent_signals_length (s : State) (t : Trigger) :
    (s.dispatchEvent t).1.signals.length = s.signals.length :=
  runListeners_signals_length _ _ _ _ _

theorem dispatchEvent_evs (s : State) (t : Trigger) :
    (s.dispatchEvent t).2 =
      Ev.emit t :: (runListeners t s.state s.listeners s.signals s.fresh).evs := rfl

theorem dispatchEvent_noHit (s : State) (t : Trigger) (i : Nat)
    (h : ∀ p ∈ s.listeners, p.1 = t → p.2 ≠ i) :
    (s.dispatchEvent t).1.signals[i]? = s.signals[i]? ∧
      callsTo i (s.dispatchEvent t).2 = 0 := by
  have := runListeners_noHit t s.state s.listeners s.signals s.fresh i h
  exact ⟨this.1, by rw [dispatchEvent_evs, callsTo_emit, this.2]⟩

/-- Dispatching `t` on a store whose listener list contains exactly one
matching registration targeting signal `i` notifies that signal exactly
once, with the store's state and some intermediate allocation counter. -/
theorem dispatchEvent_hit (s : State) (t : Trigger) (i : Nat)
    (l₁ l₂ : List (Trigger × Nat)) (sg : Signal)
    (hls : s.listeners = l₁ ++ (t, i) :: l₂)
    (h₁ : ∀ p ∈ l₁, p.1 = t → p.2 ≠ i)
    (h₂ : ∀ p ∈ l₂, p.1 = t → p.2 ≠ i)
    (hsg : s.signals[i]? = some sg) :
    ∃ c₁, (s.dispatchEvent t).1.signals[i]? = some (Signal.notify sg s.state c₁).sg ∧
      callsTo i (s.dispatchEvent t).2 = (Signal.notify sg s.state c₁).calls.length := by
  have hsplit : s.listeners = (l₁ ++ [(t, i)]) ++ l₂ := by
    rw [hls, List.append_assoc]; rfl
  unfold State.dispatchEvent
  rw [hsplit, runListeners_append, runListeners_append]
  have h1 := runListeners_noHit t s.state l₁ s.signals s.fresh i h₁
  set r1 := runListeners t s.state l₁ s.signals s.fresh with hr1
  have hget1 : r1.signals[i]? = some sg := by rw [h1.1, hsg]
  rw [runListeners_singleton_hit t s.state i r1.signals r1.fresh sg hget1]
  set nr := Signal.notify sg s.state r1.fresh with hnr
  have h2 := runListeners_noHit t s.state l₂ (r1.signals.set i nr.sg) nr.fresh i h₂
  refine ⟨r1.fresh, ?_, ?_⟩
  · simpa [h2.1] using List.getElem?_set_self' (l := r1.signals) (i := i) (a := nr.sg)
      |>.trans (by
        have : i < r1.signals.length := by
          have := List.getElem?_eq_some_iff.mp hget1
          exact this.1
        simp [List.getElem?_eq_getElem, this])
  · simp [callsTo_emit, callsTo_append, h1.2, h2.2, callsTo_map_call, hnr]

/-! ### `setLoop` lemmas -/

theorem setLoop_state (old : JSVal) (s : State) (ks : List String) :
    (setLoop old s ks).1.state = s.state := by
  induction ks generalizing s with
  | nil => rfl
  | cons k rest ih =>
    by_cases h : jsIs (getField s.state k) (getField old k)
    · simp [setLoop, h, ih]
    · simp only [setLoop, h, Bool.not_false, if_pos]
      rw [ih, dispatchEvent_state]

theorem setLoop_listeners (old : JSVal) (s : State) (ks : List String) :
    (setLoop old s ks).1.listeners = s.listeners := by
  induction ks generalizing s with
  | nil => rfl
  | cons k rest ih =>
    by_cases h : jsIs (getField s.state k) (getField old k)
    · simp [setLoop, h, ih]
    · simp only [setLoop, h, Bool.not_false, if_pos]
      rw [ih, dispatchEvent_listeners]

/-- If for every key in the loop either no matching listener targets signal
`i` or the key's value is `Object.is`-unchanged, the loop neither touches
signal `i` nor makes it invoke any subscriber. -/
theorem setLoop_quiet (old : JSVal) (s : State) (ks : List String) (i : Nat)
    (h : ∀ k ∈ ks, (∀ p ∈ s.listeners, p.1 = Trigger.key k → p.2 ≠ i) ∨
      jsIs (getField s.state k) (getField old k) = true) :
    (setLoop old s ks).1.signals[i]? = s.signals[i]? ∧
      callsTo i (setLoop old s ks).2 = 0 := by
  induction ks generalizing s with
  | nil => simp [setLoop, callsTo_nil]
  | cons k rest ih =>
    have hrest : ∀ k' ∈ rest, (∀ p ∈ s.listeners, p.1 = Trigger.key k' → p.2 ≠ i) ∨
        jsIs (getField s.state k') (getField old k') = true :=
      fun k' hk' => h k' (List.mem_cons_of_mem _ hk')
    by_cases hch : jsIs (getField s.state k) (getField old k)
    · simpa [setLoop, hch] using ih s hrest
    · simp only [setLoop, hch, Bool.not_false, if_pos]
      rcases h k (List.mem_cons_self _ _) with hno | hch'
      · have hd := dispatchEvent_noHit s (Trigger.key k) i hno
        set s' := (s.dispatchEvent (Trigger.key k)).1 with hs'
        have hrest' : ∀ k' ∈ rest, (∀ p ∈ s'.listeners, p.1 = Trigger.key k' → p.2 ≠ i) ∨
            jsIs (getField s'.state k') (getField old k') = true := by
          rw [hs', dispatchEvent_listeners, dispatchEvent_state]
          exact hrest
        have := ih s' hrest'
        constructor
        · rw [this.1, hd.1]
        · rw [callsTo_append, hd.2, this.2]
      · exact absurd hch' (by simpa using hch)

/-- The loop over the new state's keys when the only listener registration
targeting signal `i` is for key `k`, `k` occurs once among the keys, and
`k`'s value changed: signal `i` is notified exactly once. -/
theorem setLoop_oneKey (old : JSVal) (s : State) (ks : List String) (i : Nat)
    (k : String) (L₀ : List (Trigger × Nat)) (sg : Signal)
    (hls : s.listeners = L₀ ++ [(Trigger.key k, i)])
    (hL₀ : ∀ p ∈ L₀, p.2 ≠ i)
    (hnd : ks.Nodup) (hk : k ∈ ks)
    (hch : jsIs (getField s.state k) (getField old k) = false)
    (hsg : s.signals[i]? = some sg) :
    ∃ c₁, (setLoop old s ks).1.signals[i]? = some (Signal.notify sg s.state c₁).sg ∧
      callsTo i (setLoop old s ks).2 = (Signal.notify sg s.state c₁).calls.length := by
  induction ks generalizing s with
  | nil => cases hk
  | cons k' rest ih =>
    rcases List.mem_cons.mp hk with heq | hkrest
    · -- head is the tracked key: it changed, so it is dispatched and hits i once
      subst heq
      simp only [setLoop, hch, Bool.not_false, if_pos]
      obtain ⟨c₁, hval, hcalls⟩ := dispatchEvent_hit s (Trigger.key k) i L₀ [] sg hls
        (fun p hp _ => hL₀ p hp) (by intro p hp; cases hp) hsg
      set s' := (s.dispatchEvent (Trigger.key k)).1 with hs'
      have hknotrest : k ∉ rest := (List.nodup_cons.mp hnd).1
      have hquiet := setLoop_quiet old s' rest i (by
        intro k'' hk''
        left
        intro p hp hp1
        rw [hs', dispatchEvent_listeners, hls] at hp
        rcases List.mem_append.mp hp with hpL | hpR
        · exact hL₀ p hpL
        · rcases List.mem_singleton.mp hpR with rfl
          simp only at hp1
          cases hp1
          exact absurd hk'' hknotrest)
      refine ⟨c₁, ?_, ?_⟩
      · rw [hquiet.1, hval]
      · rw [callsTo_append, hcalls, hquiet.2]
        omega
    · -- head is a different key (the tracked key occurs later)
      have hne : k' ≠ k := by
        rintro rfl
        exact (List.nodup_cons.mp hnd).1 hkrest
      have hnoHit : ∀ p ∈ s.listeners, p.1 = Trigger.key k' → p.2 ≠ i := by
        intro p hp hp1
        rw [hls] at hp
        rcases List.mem_append.mp hp with hpL | hpR
        · exact hL₀ p hpL
        · rcases List.mem_singleton.mp hpR with rfl
          simp only at hp1
          cases hp1
          exact absurd rfl hne
      by_cases hch' : jsIs (getField s.state k') (getField old k')
      · rw [setLoop, if_neg (by simp [hch'])]
        exact ih s hls (List.nodup_cons.mp hnd).2 hkrest hch hsg
      · rw [setLoop, if_pos (by simp [Bool.eq_false_iff.mp (Bool.of_not_eq_true hch')])]
        have hd := dispatchEvent_noHit s (Trigger.key k') i hnoHit
        set s' := (s.dispatchEvent (Trigger.key k')).1 with hs'
        have hls' : s'.listeners = L₀ ++ [(Trigger.key k, i)] := by
          rw [hs', dispatchEvent_listeners, hls]
        have hsg' : s'.signals[i]? = some sg := by rw [hs'] at *; rw [hd.1, hsg]
        have hch'' : jsIs (getField s'.state k) (getField old k) = false := by
          rw [hs', dispatchEvent_state]; exact hch
        obtain ⟨c₁, hval, hcalls⟩ := ih s' hls' (List.nodup_cons.mp hnd).2 hkrest hch'' hsg'
        rw [hs'] at hval hcalls
        rw [dispatchEvent_state] at hval hcalls
        refine ⟨c₁, ?_, ?_⟩
        · exact hval
        · rw [callsTo_append]
          rw [hs'] at hd
          rw [hd.2, hcalls]
          omega

/-! ### `State.set`, `State.select`, `State.subscribeAt` unfolding lemmas -/

theorem State.set_some (s : State) (u : Updater) (ns : JSVal) (c' : Nat)
    (hu : u s.state s.fresh = some (ns, c')) :
    State.set s u =
      ⟨(setLoop s.state
          ((⟨ns, s.listeners, s.signals, c'⟩ : State).dispatchEvent Trigger.change).1
          (objKeys ns)).1,
        ((⟨ns, s.listeners, s.signals, c'⟩ : State).dispatchEvent Trigger.change).2 ++
          (setLoop s.state
            ((⟨ns, s.listeners, s.signals, c'⟩ : State).dispatchEvent Trigger.change).1
            (objKeys ns)).2,
        false⟩ := by
  unfold State.set
  rw [hu]
  rfl

theorem State.set_none (s : State) (u : Updater)
    (hu : u s.state s.fresh = none) :
    State.set s u = ⟨s, [], true⟩ := by
  unfold State.set
  rw [hu]

theorem State.set_listeners (s : State) (u : Updater) :
    (State.set s u).store.listeners = s.listeners := by
  unfold State.set
  rcases hu : u s.state s.fresh with _ | ⟨ns, c'⟩
  · rfl
  · simp only
    rw [setLoop_listeners, dispatchEvent_listeners]

theorem State.set_state_some (s : State) (u : Updater) (ns : JSVal) (c' : Nat)
    (hu : u s.state s.fresh = some (ns, c')) :
    (State.set s u).store.state = ns := by
  rw [State.set_some s u ns c' hu]
  simp only
  rw [setLoop_state, dispatchEvent_state]

theorem State.select_field (s : State) (k : String) (o : Option Bool)
    (hk : hasField s.state k = true) :
    State.select s (Selector.field k) o =
      (⟨s.state,
          s.listeners ++ [(Trigger.key k, s.signals.length)],
          s.signals ++ [⟨getField s.state k, Selector.field k, ⟨o.getD true⟩, []⟩],
          s.fresh⟩,
        s.signals.length) := by
  unfold State.select
  simp [Selector.deps, hk, Selector.evalProxy, Selector.eval]

theorem State.select_whole (s : State) (o : Option Bool) :
    State.select s Selector.whole o =
      (⟨s.state,
          s.listeners ++ [(Trigger.change, s.signals.length)],
          s.signals ++
            [⟨JSVal.obj s.fresh (objFields s.state), Selector.whole, ⟨o.getD true⟩, []⟩],
          s.fresh + 1⟩,
        s.signals.length) := by
  unfold State.select
  simp [Selector.deps, Selector.evalProxy]

theorem State.select_constPrim (s : State) (n : Nat) (o : Option Bool) :
    State.select s (Selector.constPrim n) o =
      (⟨s.state,
          s.listeners ++ [(Trigger.change, s.signals.length)],
          s.signals ++ [⟨JSVal.prim n, Selector.constPrim n, ⟨o.getD true⟩, []⟩],
          s.fresh⟩,
        s.signals.length) := by
  unfold State.select
  simp [Selector.deps, Selector.evalProxy, Selector.eval]

theorem dedupFirstAux_eq_self {l seen : List String} (h : l.Nodup)
    (hdisj : ∀ x ∈ l, x ∉ seen) : dedupFirstAux seen l = l := by
  induction l generalizing seen with
  | nil => rfl
  | cons k ks ih =>
    rw [dedupFirstAux, if_neg (hdisj k (List.mem_cons_self _ _))]
    congr 1
    apply ih (List.nodup_cons.mp h).2
    intro x hx
    simp only [List.mem_cons, not_or]
    exact ⟨fun he => (List.nodup_cons.mp h).1 (he ▸ hx),
      hdisj x (List.mem_cons_of_mem _ hx)⟩

theorem dedupFirst_eq_self {l : List String} (h : l.Nodup) : dedupFirst l = l :=
  dedupFirstAux_eq_self h (by intro x _ hx; cases hx)

theorem State.select_readFresh (s : State) (ks : List String) (o : Option Bool)
    (hall : ∀ k ∈ ks, hasField s.state k = true) (hnd : ks.Nodup) (hne : ks ≠ []) :
    State.select s (Selector.readFresh ks) o =
      (⟨s.state,
          s.listeners ++ ks.map (fun k => (Trigger.key k, s.signals.length)),
          s.signals ++ [⟨JSVal.obj s.fresh [], Selector.readFresh ks, ⟨o.getD true⟩, []⟩],
          s.fresh + 1⟩,
        s.signals.length) := by
  unfold State.select
  have hfilter : ks.filter (fun k => hasField s.state k) = ks :=
    List.filter_eq_self.mpr hall
  have hdeps : Selector.deps (Selector.readFresh ks) s.state = ks := by
    rw [Selector.deps, hfilter, dedupFirst_eq_self hnd]
  rw [hdeps]
  simp [Selector.evalProxy, Selector.eval, List.isEmpty_iff, hne]

theorem List.set_concat_length {α : Type} (l : List α) (a b : α) :
    (l ++ [a]).set l.length b = l ++ [b] := by
  induction l with
  | nil => rfl
  | cons x xs ih => simp [List.set, ih]

theorem State.subscribeAt_concat (st : JSVal) (ls : List (Trigger × Nat))
    (sigs : List Signal) (sg : Signal) (c : Nat) (L : Nat) :
    State.subscribeAt ⟨st, ls, sigs ++ [sg], c⟩ sigs.length L =
      ⟨st, ls, sigs ++ [sg.subscribe L], c⟩ := by
  unfold State.subscribeAt
  rw [show (sigs ++ [sg])[sigs.length]? = some sg from List.getElem?_concat_length sigs sg]
  simp [List.set_concat_length]

/-! ### Trace-shape lemmas -/


theorem runListeners_evs_call (t : Trigger) (st : JSVal)
    (ls : List (Trigger × Nat)) (sigs : List Signal) (c : Nat) :
    ∀ e ∈ (runListeners t st ls sigs c).evs, ∃ j l, e = Ev.call j l := by
  induction ls generalizing sigs c with
  | nil => intro e he; cases he
  | cons p rest ih =>
    obtain ⟨t', j⟩ := p
    by_cases ht : t' = t
    · rcases hj : sigs[j]? with _ | sg
      · simpa [runListeners, ht, hj] using ih _ _
      · intro e he
        simp only [runListeners, ht, if_true, hj, List.mem_append] at he
        rcases he with he | he
        · obtain ⟨l, _, rfl⟩ := List.mem_map.mp he
          exact ⟨j, l, rfl⟩
        · exact ih _ _ e he
    · simpa [runListeners, ht] using ih _ _

theorem runListeners_filterMap_emittedKey (t : Trigger) (st : JSVal)
    (ls : List (Trigger × Nat)) (sigs : List Signal) (c : Nat) :
    (runListeners t st ls sigs c).evs.filterMap emittedKey = [] := by
  rw [List.filterMap_eq_nil_iff]
  intro e he
  obtain ⟨j, l, rfl⟩ := runListeners_evs_call t st ls sigs c e he
  rfl

theorem dispatchEvent_filterMap_emittedKey (s : State) (t : Trigger) :
    (s.dispatchEvent t).2.filterMap emittedKey =
      (emittedKey (Ev.emit t)).toList := by
  rw [dispatchEvent_evs, List.filterMap_cons, runListeners_filterMap_emittedKey]
  cases t <;> rfl

theorem setLoop_filterMap_emittedKey (old : JSVal) (s : State) (ks : List String) :
    (setLoop old s ks).2.filterMap emittedKey =
      ks.filter (fun k => !jsIs (getField s.state k) (getField old k)) := by
  induction ks generalizing s with
  | nil => rfl
  | cons k rest ih =>
    by_cases hch : jsIs (getField s.state k) (getField old k)
    · simp [setLoop, hch, ih, List.filter_cons]
    · simp only [setLoop, hch, Bool.not_false, if_pos]
      rw [List.filterMap_append, dispatchEvent_filterMap_emittedKey, ih,
        dispatchEvent_state, List.filter_cons]
      simp [hch, emittedKey, Option.toList]

/-! ### `Signal.notify` shape lemmas -/

theorem Signal.notify_calls_cases (sg : Signal) (st : JSVal) (c : Nat) :
    (Signal.notify sg st c).calls = sg.subscriptions ∨
      (Signal.notify sg st c).calls = [] := by
  cases h : (!sg.opts.shallowCompare ||
      !shallowCompare sg.value (Selector.eval sg.selector st c).1) with
  | true => exact Or.inl (by simp [Signal.notify, h])
  | false => exact Or.inr (by simp [Signal.notify, h])

theorem Signal.notify_gate_block (sg : Signal) (st : JSVal) (c : Nat)
    (hsc : sg.opts.shallowCompare = true)
    (heq : shallowCompare sg.value (Selector.eval sg.selector st c).1 = true) :
    Signal.notify sg st c = ⟨sg, (Selector.eval sg.selector st c).2, []⟩ := by
  unfold Signal.notify
  rw [if_neg]
  simp [hsc, heq]

theorem Signal.notify_gate_pass (sg : Signal) (st : JSVal) (c : Nat)
    (h : sg.opts.shallowCompare = false ∨
      shallowCompare sg.value (Selector.eval sg.selector st c).1 = false) :
    Signal.notify sg st c =
      ⟨{ sg with value := (Selector.eval sg.selector st c).1 },
        (Selector.eval sg.selector st c).2, sg.subscriptions⟩ := by
  unfold Signal.notify
  rw [if_pos]
  rcases h with h | h <;> simp [h]

theorem not_mem_objKeys_of_hasField_false {v : JSVal} {k : String}
    (h : hasField v k = false) : k ∉ objKeys v := by
  cases v with
  | undef => simp [objKeys]
  | prim n => simp [objKeys]
  | obj i fs =>
    simp only [hasField, List.any_eq_false] at h
    simp only [objKeys, List.mem_map]
    rintro ⟨p, hp, rfl⟩
    exact absurd (beq_self_eq_true p.1) (by simpa using h p hp)

/-! ### Claim theorems -/

/-- C6: if the updater passed to `set` throws, the exception propagates
synchronously to the caller (`threw = true`), the store is exactly the
store held before the call (the assignment to `#state` never happened),
and no generic or per-key notification is emitted (empty event trace). -/
theorem set_throwing_updater_is_noop (s : State) (u : Updater)
    (hu : u s.state s.fresh = none) :
    (State.set s u).threw = true ∧ (State.set s u).store = s ∧
      (State.set s u).evs = [] := by
  rw [State.set_none s u hu]
  exact ⟨rfl, rfl, rfl⟩

/-- Witness for C6 at a concrete store and a throwing updater. -/
theorem set_throwing_updater_is_noop_witness :
    (State.set (State.mk0 (JSVal.obj 0 [("value", JSVal.prim 1)]) 1)
        (fun _ _ => none)).threw = true ∧
      (State.set (State.mk0 (JSVal.obj 0 [("value", JSVal.prim 1)]) 1)
        (fun _ _ => none)).store = State.mk0 (JSVal.obj 0 [("value", JSVal.prim 1)]) 1 ∧
      (State.set (State.mk0 (JSVal.obj 0 [("value", JSVal.prim 1)]) 1)
        (fun _ _ => none)).evs = [] :=
  set_throwing_updater_is_noop _ _ rfl

/-- C7: per-key change detection iterates only over the new state's own
keys.  A field present in the old state but absent from the new state
never has its per-key notification emitted by that `set` call, while the
generic `change` notification still fires. -/
theorem set_removed_field_not_signaled (s : State) (u : Updater)
    (ns : JSVal) (c' : Nat) (k : String)
    (hu : u s.state s.fresh = some (ns, c'))
    (_hold : hasField s.state k = true)
    (hnew : hasField ns k = false) :
    Ev.emit (Trigger.key k) ∉ (State.set s u).evs ∧
      Ev.emit Trigger.change ∈ (State.set s u).evs := by
  rw [State.set_some s u ns c' hu]
  simp only
  constructor
  · intro hmem
    rcases List.mem_append.mp hmem with hd | hl
    · rw [dispatchEvent_evs] at hd
      rcases List.mem_cons.mp hd with heq | htail
      · cases heq
      · obtain ⟨j, l, hjl⟩ := runListeners_evs_call _ _ _ _ _ _ htail
        cases hjl
    · have hk : k ∈ (setLoop s.state
          ((⟨ns, s.listeners, s.signals, c'⟩ : State).dispatchEvent Trigger.change).1
          (objKeys ns)).2.filterMap emittedKey :=
        List.mem_filterMap.mpr ⟨Ev.emit (Trigger.key k), hl, rfl⟩
      rw [setLoop_filterMap_emittedKey] at hk
      exact not_mem_objKeys_of_hasField_false hnew (List.mem_of_mem_filter hk)
  · apply List.mem_append_left
    rw [dispatchEvent_evs]
    exact List.mem_cons_self _ _

/-- Witness for C7: `{a: 1, b: 2}` updated to `{a: 3}` — the removed field
`b` emits no `change:b`, the generic `change` still fires. -/
theorem set_removed_field_not_signaled_witness :
    Ev.emit (Trigger.key "b") ∉
        (State.set (State.mk0 (JSVal.obj 0 [("a", JSVal.prim 1), ("b", JSVal.prim 2)]) 1)
          (fun _ c => some (JSVal.obj c [("a", JSVal.prim 3)], c + 1))).evs ∧
      Ev.emit Trigger.change ∈
        (State.set (State.mk0 (JSVal.obj 0 [("a", JSVal.prim 1), ("b", JSVal.prim 2)]) 1)
          (fun _ c => some (JSVal.obj c [("a", JSVal.prim 3)], c + 1))).evs :=
  set_removed_field_not_signaled _ _ (JSVal.obj 1 [("a", JSVal.prim 3)]) 2 "b"
    rfl rfl rfl

/-- C8: within a single successful `set` call, the generic `change`
notification is emitted first, before any per-key notification; the
per-key notifications occur exactly for the changed keys, in the iteration
order of the new state's own keys; and a signal's `notify` invokes its
subscriber callbacks in subscription order (all of them, or none when the
equality gate suppresses). -/
theorem set_notification_order (s : State) (u : Updater) (ns : JSVal) (c' : Nat)
    (hu : u s.state s.fresh = some (ns, c')) :
    (State.set s u).evs.head? = some (Ev.emit Trigger.change) ∧
      (State.set s u).evs.filterMap emittedKey =
        (objKeys ns).filter (fun k => !jsIs (getField ns k) (getField s.state k)) ∧
      ∀ (sg : Signal) (st : JSVal) (c : Nat),
        (Signal.notify sg st c).calls = sg.subscriptions ∨
          (Signal.notify sg st c).calls = [] := by
  rw [State.set_some s u ns c' hu]
  refine ⟨?_, ?_, fun sg st c => Signal.notify_calls_cases sg st c⟩
  · simp only [dispatchEvent_evs, List.cons_append, List.head?_cons]
  · simp only [List.filterMap_append, dispatchEvent_filterMap_emittedKey]
    rw [setLoop_filterMap_emittedKey, dispatchEvent_state]
    rfl

/-- Witness for C8 at the concrete two-field update `{a:1,b:2} → {a:3,b:2}`:
the head of the trace is the generic emission and only `a`'s per-key event
fires. -/
theorem set_notification_order_witness :
    (State.set (State.mk0 (JSVal.obj 0 [("a", JSVal.prim 1), ("b", JSVal.prim 2)]) 1)
        (fun _ c => some (JSVal.obj c [("a", JSVal.prim 3), ("b", JSVal.prim 2)], c + 1))).evs.head? =
        some (Ev.emit Trigger.change) ∧
      (State.set (State.mk0 (JSVal.obj 0 [("a", JSVal.prim 1), ("b", JSVal.prim 2)]) 1)
        (fun _ c => some (JSVal.obj c [("a", JSVal.prim 3), ("b", JSVal.prim 2)], c + 1))).evs.filterMap
          emittedKey =
        (objKeys (JSVal.obj 1 [("a", JSVal.prim 3), ("b", JSVal.prim 2)])).filter
          (fun k => !jsIs (getField (JSVal.obj 1 [("a", JSVal.prim 3), ("b", JSVal.prim 2)]) k)
            (getField (JSVal.obj 0 [("a", JSVal.prim 1), ("b", JSVal.prim 2)]) k)) ∧
      ∀ (sg : Signal) (st : JSVal) (c : Nat),
        (Signal.notify sg st c).calls = sg.subscriptions ∨
          (Signal.notify sg st c).calls = [] :=
  set_notification_order _ _ (JSVal.obj 1 [("a", JSVal.prim 3), ("b", JSVal.prim 2)]) 2 rfl

/-- C2: a `set` call whose updater leaves the selected field's value
identity-unchanged invokes zero of that signal's subscribers; and in the
concrete two-signal scenario over `{a: 1, b: 1}`, a `set` changing only
`a` notifies only the `a`-signal's subscriber and none of the `b`-signal's. -/
theorem set_unrelated_field_change_no_notification (s0 : State) (k : String) (L : Nat)
    (u : Updater) (ns : JSVal) (c2 : Nat)
    (hwf : listenersBounded s0)
    (hk : hasField s0.state k = true)
    (hu : u s0.state s0.fresh = some (ns, c2))
    (hunrel : jsIs (getField ns k) (getField s0.state k) = true) :
    callsTo (State.select s0 (Selector.field k) none).2
      (State.set
        (State.subscribeAt (State.select s0 (Selector.field k) none).1
          (State.select s0 (Selector.field k) none).2 L) u).evs = 0 ∧
    (callsTo 0
        (State.set
          (State.subscribeAt
            (State.subscribeAt
              (State.select
                (State.select
                  (State.mk0 (JSVal.obj 0 [("a", JSVal.prim 1), ("b", JSVal.prim 1)]) 1)
                  (Selector.field "a") none).1
                (Selector.field "b") none).1
              0 10)
            1 20)
          (fun st c => some (JSVal.obj c [("a", JSVal.prim 2), ("b", getField st "b")], c + 1))).evs = 1 ∧
      callsTo 1
        (State.set
          (State.subscribeAt
            (State.subscribeAt
              (State.select
                (State.select
                  (State.mk0 (JSVal.obj 0 [("a", JSVal.prim 1), ("b", JSVal.prim 1)]) 1)
                  (Selector.field "a") none).1
                (Selector.field "b") none).1
              0 10)
            1 20)
          (fun st c => some (JSVal.obj c [("a", JSVal.prim 2), ("b", getField st "b")], c + 1))).evs = 0) := by
  refine ⟨?_, by constructor <;> rfl⟩
  rw [State.select_field s0 k none hk]
  simp only
  rw [State.subscribeAt_concat]
  rw [State.set_some
    ⟨s0.state, s0.listeners ++ [(Trigger.key k, s0.signals.length)],
      s0.signals ++
        [Signal.subscribe ⟨getField s0.state k, Selector.field k, ⟨none.getD true⟩, []⟩ L],
      s0.fresh⟩ u ns c2 hu]
  simp only
  rw [callsTo_append]
  have hnoChange : ∀ p ∈ s0.listeners ++ [(Trigger.key k, s0.signals.length)],
      p.1 = Trigger.change → p.2 ≠ s0.signals.length := by
    intro p hp hp1
    rcases List.mem_append.mp hp with hpL | hpR
    · exact Nat.ne_of_lt (hwf p hpL)
    · rcases List.mem_singleton.mp hpR with rfl
      cases hp1
  have hd := dispatchEvent_noHit
    ⟨ns, s0.listeners ++ [(Trigger.key k, s0.signals.length)],
      s0.signals ++ [Signal.subscribe ⟨getField s0.state k, Selector.field k, ⟨none.getD true⟩, []⟩ L],
      c2⟩ Trigger.change s0.signals.length hnoChange
  rw [hd.2]
  set s1 : State := ⟨ns, s0.listeners ++ [(Trigger.key k, s0.signals.length)],
      s0.signals ++ [Signal.subscribe ⟨getField s0.state k, Selector.field k, ⟨none.getD true⟩, []⟩ L],
      c2⟩ with hs1
  have hq := setLoop_quiet s0.state (s1.dispatchEvent Trigger.change).1 (objKeys ns)
    s0.signals.length (by
      intro k' hk'
      by_cases hkk : k' = k
      · subst hkk
        right
        rw [dispatchEvent_state]
        exact hunrel
      · left
        intro p hp hp1
        rw [dispatchEvent_listeners] at hp
        rcases List.mem_append.mp hp with hpL | hpR
        · exact Nat.ne_of_lt (hwf p hpL)
        · rcases List.mem_singleton.mp hpR with rfl
          cases hp1
          exact absurd rfl (Ne.symm hkk))
  rw [hq.2]

/-- Witness for C2: `{a: 1, b: 1}`, signal on `b`, `set` changing only `a`:
zero subscriber invocations for the `b`-signal. -/
theorem set_unrelated_field_change_no_notification_witness :
    callsTo
      (State.select (State.mk0 (JSVal.obj 0 [("a", JSVal.prim 1), ("b", JSVal.prim 1)]) 1)
        (Selector.field "b") none).2
      (State.set
        (State.subscribeAt
          (State.select (State.mk0 (JSVal.obj 0 [("a", JSVal.prim 1), ("b", JSVal.prim 1)]) 1)
            (Selector.field "b") none).1
          (State.select (State.mk0 (JSVal.obj 0 [("a", JSVal.prim 1), ("b", JSVal.prim 1)]) 1)
            (Selector.field "b") none).2 20)
        (fun st c => some (JSVal.obj c [("a", JSVal.prim 2), ("b", getField st "b")], c + 1))).evs = 0 :=
  (set_unrelated_field_change_no_notification
    (State.mk0 (JSVal.obj 0 [("a", JSVal.prim 1), ("b", JSVal.prim 1)]) 1) "b" 20
    (fun st c => some (JSVal.obj c [("a", JSVal.prim 2), ("b", getField st "b")], c + 1))
    (JSVal.obj 1 [("a", JSVal.prim 2), ("b", JSVal.prim 1)]) 2
    (by intro p hp; cases hp) rfl rfl rfl).1


/-- Unfolding of `select` for a selector that reads one present key `a`
and one absent key `c`: only `a` is recorded, so only `change:a` is
subscribed. -/
theorem State.select_readFresh_two (s : State) (a c : String) (o : Option Bool)
    (ha : hasField s.state a = true) (hc : hasField s.state c = false) :
    State.select s (Selector.readFresh [a, c]) o =
      (⟨s.state,
          s.listeners ++ [(Trigger.key a, s.signals.length)],
          s.signals ++ [⟨JSVal.obj s.fresh [], Selector.readFresh [a, c], ⟨o.getD true⟩, []⟩],
          s.fresh + 1⟩,
        s.signals.length) := by
  unfold State.select
  have hdeps : Selector.deps (Selector.readFresh [a, c]) s.state = [a] := by
    simp [Selector.deps, List.filter_cons, ha, hc, dedupFirst, dedupFirstAux]
  rw [hdeps]
  simp [Selector.evalProxy, Selector.eval]

/-- The per-key emissions of a successful `set` are exactly the changed
keys of the new state, in its key order. -/
theorem State.set_filterMap_emittedKey (s : State) (u : Updater) (ns : JSVal) (c' : Nat)
    (hu : u s.state s.fresh = some (ns, c')) :
    (State.set s u).evs.filterMap emittedKey =
      (objKeys ns).filter (fun k => !jsIs (getField ns k) (getField s.state k)) := by
  rw [State.set_some s u ns c' hu]
  simp only [List.filterMap_append, dispatchEvent_filterMap_emittedKey]
  rw [setLoop_filterMap_emittedKey, dispatchEvent_state]
  rfl

/-- C9: dependency discovery records a read only when the property exists
on the state at `select` time (`Reflect.has` guard).  A selector reading a
present key `a` and an absent key `c` records only `a`, registers only the
`change:a` listener, and a later `set` that leaves `a` identity-unchanged
(changing only the formerly-absent `c`) never dispatches `change:a` — the
signal's `notify` is never invoked and no subscriber runs. -/
theorem select_absent_key_not_tracked (s0 : State) (a c : String) (L : Nat)
    (u : Updater) (ns : JSVal) (c2 : Nat)
    (hwf : listenersBounded s0)
    (ha : hasField s0.state a = true)
    (hc : hasField s0.state c = false)
    (hu : u s0.state (State.select s0 (Selector.readFresh [a, c]) none).1.fresh =
      some (ns, c2))
    (hsame : jsIs (getField ns a) (getField s0.state a) = true) :
    Selector.deps (Selector.readFresh [a, c]) s0.state = [a] ∧
    (State.select s0 (Selector.readFresh [a, c]) none).1.listeners =
      s0.listeners ++ [(Trigger.key a, s0.signals.length)] ∧
    Ev.emit (Trigger.key a) ∉
      (State.set
        (State.subscribeAt (State.select s0 (Selector.readFresh [a, c]) none).1
          (State.select s0 (Selector.readFresh [a, c]) none).2 L) u).evs ∧
    callsTo (State.select s0 (Selector.readFresh [a, c]) none).2
      (State.set
        (State.subscribeAt (State.select s0 (Selector.readFresh [a, c]) none).1
          (State.select s0 (Selector.readFresh [a, c]) none).2 L) u).evs = 0 := by
  have hdeps : Selector.deps (Selector.readFresh [a, c]) s0.state = [a] := by
    simp [Selector.deps, List.filter_cons, ha, hc, dedupFirst, dedupFirstAux]
  rw [State.select_readFresh_two s0 a c none ha hc] at hu ⊢
  simp only at hu ⊢
  rw [State.subscribeAt_concat]
  refine ⟨hdeps, by trivial, ?_, ?_⟩
  · -- no change:a emission, since a's value is identity-unchanged
    intro hmem
    have hka : a ∈ (State.set
        ⟨s0.state, s0.listeners ++ [(Trigger.key a, s0.signals.length)],
          s0.signals ++
            [Signal.subscribe
              ⟨JSVal.obj s0.fresh [], Selector.readFresh [a, c], ⟨none.getD true⟩, []⟩ L],
          s0.fresh + 1⟩ u).evs.filterMap emittedKey :=
      List.mem_filterMap.mpr ⟨Ev.emit (Trigger.key a), hmem, rfl⟩
    rw [State.set_filterMap_emittedKey _ u ns c2 hu] at hka
    have := List.of_mem_filter hka
    rw [hsame] at this
    cases this
  · rw [State.set_some
      ⟨s0.state, s0.listeners ++ [(Trigger.key a, s0.signals.length)],
        s0.signals ++
          [Signal.subscribe
            ⟨JSVal.obj s0.fresh [], Selector.readFresh [a, c], ⟨none.getD true⟩, []⟩ L],
        s0.fresh + 1⟩ u ns c2 hu]
    simp only
    rw [callsTo_append]
    have hnoChange : ∀ p ∈ s0.listeners ++ [(Trigger.key a, s0.signals.length)],
        p.1 = Trigger.change → p.2 ≠ s0.signals.length := by
      intro p hp hp1
      rcases List.mem_append.mp hp with hpL | hpR
      · exact Nat.ne_of_lt (hwf p hpL)
      · rcases List.mem_singleton.mp hpR with rfl
        cases hp1
    have hd := dispatchEvent_noHit
      ⟨ns, s0.listeners ++ [(Trigger.key a, s0.signals.length)],
        s0.signals ++
          [Signal.subscribe
            ⟨JSVal.obj s0.fresh [], Selector.readFresh [a, c], ⟨none.getD true⟩, []⟩ L],
        c2⟩ Trigger.change s0.signals.length hnoChange
    rw [hd.2]
    have hq := setLoop_quiet s0.state
      ((⟨ns, s0.listeners ++ [(Trigger.key a, s0.signals.length)],
        s0.signals ++
          [Signal.subscribe
            ⟨JSVal.obj s0.fresh [], Selector.readFresh [a, c], ⟨none.getD true⟩, []⟩ L],
        c2⟩ : State).dispatchEvent Trigger.change).1 (objKeys ns)
      s0.signals.length (by
        intro k' hk'
        by_cases hkk : k' = a
        · subst hkk
          right
          rw [dispatchEvent_state]
          exact hsame
        · left
          intro p hp hp1
          rw [dispatchEvent_listeners] at hp
          rcases List.mem_append.mp hp with hpL | hpR
          · exact Nat.ne_of_lt (hwf p hpL)
          · rcases List.mem_singleton.mp hpR with rfl
            cases hp1
            exact absurd rfl (Ne.symm hkk))
    rw [hq.2]

/-- Witness for C9: state `{a: 1}`, selector reading `a` and the absent
`c`; a `set` adding `c` (leaving `a` identity-unchanged) dispatches
nothing to the signal. -/
theorem select_absent_key_not_tracked_witness :
    Selector.deps (Selector.readFresh ["a", "c"]) (JSVal.obj 0 [("a", JSVal.prim 1)]) = ["a"] ∧
    callsTo
      (State.select (State.mk0 (JSVal.obj 0 [("a", JSVal.prim 1)]) 1)
        (Selector.readFresh ["a", "c"]) none).2
      (State.set
        (State.subscribeAt
          (State.select (State.mk0 (JSVal.obj 0 [("a", JSVal.prim 1)]) 1)
            (Selector.readFresh ["a", "c"]) none).1
          (State.select (State.mk0 (JSVal.obj 0 [("a", JSVal.prim 1)]) 1)
            (Selector.readFresh ["a", "c"]) none).2 5)
        (fun st c => some (JSVal.obj c [("a", getField st "a"), ("c", JSVal.prim 9)], c + 1))).evs = 0 :=
  ⟨(select_absent_key_not_tracked (State.mk0 (JSVal.obj 0 [("a", JSVal.prim 1)]) 1) "a" "c" 5
      (fun st c => some (JSVal.obj c [("a", getField st "a"), ("c", JSVal.prim 9)], c + 1))
      (JSVal.obj 2 [("a", JSVal.prim 1), ("c", JSVal.prim 9)]) 3
      (by intro p hp; cases hp) rfl rfl rfl rfl).1,
    (select_absent_key_not_tracked (State.mk0 (JSVal.obj 0 [("a", JSVal.prim 1)]) 1) "a" "c" 5
      (fun st c => some (JSVal.obj c [("a", getField st "a"), ("c", JSVal.prim 9)], c + 1))
      (JSVal.obj 2 [("a", JSVal.prim 1), ("c", JSVal.prim 9)]) 3
      (by intro p hp; cases hp) rfl rfl rfl rfl).2.2.2⟩


/-- The loop over the new state's keys for a signal registered on the key
set `ks₀` with shallow comparison disabled: each changed key in `ks₀`
dispatches once and, the gate being off, fires all current subscribers —
one full round of subscriber calls per changed dependency key. -/
theorem setLoop_multiKey (old : JSVal) (s : State) (ks : List String) (i : Nat)
    (ks₀ : List String) (L₀ : List (Trigger × Nat)) (subs : List Nat)
    (hls : s.listeners = L₀ ++ ks₀.map (fun k => (Trigger.key k, i)))
    (hL₀ : ∀ p ∈ L₀, p.2 ≠ i)
    (hnd₀ : ks₀.Nodup)
    (hsig : ∃ sg, s.signals[i]? = some sg ∧ sg.opts.shallowCompare = false ∧
      sg.subscriptions = subs) :
    callsTo i (setLoop old s ks).2 =
      subs.length *
        (ks.filter (fun k => ks₀.contains k &&
          !jsIs (getField s.state k) (getField old k))).length := by
  induction ks generalizing s with
  | nil => simp [setLoop, callsTo_nil]
  | cons k rest ih =>
    by_cases hch : jsIs (getField s.state k) (getField old k)
    · -- unchanged key: skipped by the loop, excluded from the count
      rw [setLoop, if_neg (by simp [hch])]
      rw [ih s hls hsig, List.filter_cons]
      simp [hch]
    · have hchf : jsIs (getField s.state k) (getField old k) = false :=
        Bool.eq_false_iff.mpr hch
      rw [setLoop, if_pos (by simp [hchf])]
      obtain ⟨sg, hsg, hopts, hsubs⟩ := hsig
      by_cases hmem : k ∈ ks₀
      · -- a dependency key changed: one hit on signal i, gate off, subs fire
        obtain ⟨x, y, rfl⟩ := List.append_of_mem hmem
        have hx : k ∉ x := fun hkx =>
          (List.disjoint_of_nodup_append hnd₀) hkx (List.mem_cons_self _ _)
        have hy : k ∉ y := (List.nodup_cons.mp (List.nodup_append.mp hnd₀).2.1).1
        have hls' : s.listeners =
            (L₀ ++ x.map (fun k => (Trigger.key k, i))) ++
              (Trigger.key k, i) :: y.map (fun k => (Trigger.key k, i)) := by
          rw [hls, List.map_append, List.map_cons, List.append_assoc]
        have h₁ : ∀ p ∈ L₀ ++ x.map (fun k => (Trigger.key k, i)),
            p.1 = Trigger.key k → p.2 ≠ i := by
          intro p hp hp1
          rcases List.mem_append.mp hp with hpL | hpR
          · exact hL₀ p hpL
          · obtain ⟨k'', hk'', rfl⟩ := List.mem_map.mp hpR
            simp only at hp1
            cases hp1
            exact absurd hk'' hx
        have h₂ : ∀ p ∈ y.map (fun k => (Trigger.key k, i)),
            p.1 = Trigger.key k → p.2 ≠ i := by
          intro p hp hp1
          obtain ⟨k'', hk'', rfl⟩ := List.mem_map.mp hp
          simp only at hp1
          cases hp1
          exact absurd hk'' hy
        obtain ⟨c₁, hval, hcalls⟩ :=
          dispatchEvent_hit s (Trigger.key k) i _ _ sg hls' h₁ h₂ hsg
        rw [Signal.notify_gate_pass sg s.state c₁ (Or.inl hopts)] at hval hcalls
        simp only at hval hcalls
        set s' := (s.dispatchEvent (Trigger.key k)).1 with hs'
        have hrest := ih s' (by rw [hs', dispatchEvent_listeners, hls]) ⟨_, hval, hopts, hsubs⟩
        rw [hs', dispatchEvent_state] at hrest
        rw [callsTo_append, hcalls, hrest, hsubs, List.filter_cons]
        have hcond : ((x ++ k :: y).contains k &&
            !jsIs (getField s.state k) (getField old k)) = true := by
          simp only [hchf, Bool.not_false, Bool.and_true]
          simp
        rw [if_pos hcond]
        rw [List.length_cons, Nat.mul_succ]
        omega
      · -- a changed key outside the dependency set: no listener targets i
        have hnoHit : ∀ p ∈ s.listeners, p.1 = Trigger.key k → p.2 ≠ i := by
          intro p hp hp1
          rw [hls] at hp
          rcases List.mem_append.mp hp with hpL | hpR
          · exact hL₀ p hpL
          · obtain ⟨k'', hk'', rfl⟩ := List.mem_map.mp hpR
            simp only at hp1
            cases hp1
            exact absurd hk'' hmem
        have hd := dispatchEvent_noHit s (Trigger.key k) i hnoHit
        set s' := (s.dispatchEvent (Trigger.key k)).1 with hs'
        have hrest := ih s' (by rw [hs', dispatchEvent_listeners, hls])
          ⟨sg, by rw [hs', hd.1, hsg], hopts, hsubs⟩
        rw [hs', dispatchEvent_state] at hrest
        rw [callsTo_append]
        rw [hs'] at hd
        rw [hd.2, hrest, List.filter_cons]
        have hcond : (ks₀.contains k &&
            !jsIs (getField s.state k) (getField old k)) = false := by
          simp only [hchf, Bool.not_false, Bool.and_true]
          simpa using hmem
        rw [if_neg (by rw [hcond]; exact Bool.false_ne_true)]
        omega


/-- C10: a signal whose dependency set holds several keys is registered
once per key; a single `set` changing `m` of those keys (each to a
non-`Object.is`-equal value) invokes the signal's `notify` once per changed
key, and with shallow comparison disabled its subscriber fires `m` times
in that one `set` call. -/
theorem multi_dep_signal_fires_once_per_changed_key (s0 : State) (ks : List String)
    (L : Nat) (u : Updater) (ns : JSVal) (c2 : Nat)
    (hwf : listenersBounded s0)
    (hall : ∀ k ∈ ks, hasField s0.state k = true)
    (hnd : ks.Nodup)
    (hlen : 2 ≤ ks.length)
    (hndns : (objKeys ns).Nodup)
    (hns : ∀ k ∈ ks, k ∈ objKeys ns)
    (hu : u s0.state
      (State.select s0 (Selector.readFresh ks) (some false)).1.fresh = some (ns, c2)) :
    callsTo (State.select s0 (Selector.readFresh ks) (some false)).2
      (State.set
        (State.subscribeAt (State.select s0 (Selector.readFresh ks) (some false)).1
          (State.select s0 (Selector.readFresh ks) (some false)).2 L) u).evs =
      (ks.filter (fun k => !jsIs (getField ns k) (getField s0.state k))).length := by
  have hne : ks ≠ [] := by
    intro h
    rw [h] at hlen
    exact absurd hlen (by simp)
  rw [State.select_readFresh s0 ks (some false) hall hnd hne] at hu ⊢
  simp only at hu ⊢
  rw [State.subscribeAt_concat]
  rw [State.set_some
    ⟨s0.state, s0.listeners ++ ks.map (fun k => (Trigger.key k, s0.signals.length)),
      s0.signals ++
        [Signal.subscribe
          ⟨JSVal.obj s0.fresh [], Selector.readFresh ks, ⟨(some false).getD true⟩, []⟩ L],
      s0.fresh + 1⟩ u ns c2 hu]
  simp only
  rw [callsTo_append]
  have hnoChange : ∀ p ∈ s0.listeners ++ ks.map (fun k => (Trigger.key k, s0.signals.length)),
      p.1 = Trigger.change → p.2 ≠ s0.signals.length := by
    intro p hp hp1
    rcases List.mem_append.mp hp with hpL | hpR
    · exact Nat.ne_of_lt (hwf p hpL)
    · obtain ⟨k'', _, rfl⟩ := List.mem_map.mp hpR
      cases hp1
  have hd := dispatchEvent_noHit
    ⟨ns, s0.listeners ++ ks.map (fun k => (Trigger.key k, s0.signals.length)),
      s0.signals ++
        [Signal.subscribe
          ⟨JSVal.obj s0.fresh [], Selector.readFresh ks, ⟨(some false).getD true⟩, []⟩ L],
      c2⟩ Trigger.change s0.signals.length hnoChange
  rw [hd.2]
  set s1 : State :=
    ⟨ns, s0.listeners ++ ks.map (fun k => (Trigger.key k, s0.signals.length)),
      s0.signals ++
        [Signal.subscribe
          ⟨JSVal.obj s0.fresh [], Selector.readFresh ks, ⟨(some false).getD true⟩, []⟩ L],
      c2⟩ with hs1
  have hsigAt : (s1.dispatchEvent Trigger.change).1.signals[s0.signals.length]? =
      some (Signal.subscribe
        ⟨JSVal.obj s0.fresh [], Selector.readFresh ks, ⟨(some false).getD true⟩, []⟩ L) := by
    rw [hd.1, hs1]
    exact List.getElem?_concat_length _ _
  have hloop := setLoop_multiKey s0.state (s1.dispatchEvent Trigger.change).1 (objKeys ns)
    s0.signals.length ks s0.listeners [L]
    (by rw [dispatchEvent_listeners, hs1])
    (fun p hp => Nat.ne_of_lt (hwf p hp))
    hnd
    ⟨_, hsigAt, rfl, rfl⟩
  rw [dispatchEvent_state] at hloop
  rw [hloop]
  have hstate1 : s1.state = ns := by rw [hs1]
  simp only [hstate1]
  -- the changed keys among the new state's keys are exactly the changed
  -- dependency keys, and both listings are duplicate-free
  have hperm : ((objKeys ns).filter
        (fun k => ks.contains k && !jsIs (getField ns k) (getField s0.state k))).Perm
      (ks.filter (fun k => !jsIs (getField ns k) (getField s0.state k))) := by
    apply List.perm_of_nodup_nodup_toFinset_eq (hndns.filter _) (hnd.filter _)
    apply List.toFinset.ext
    intro x
    simp only [List.mem_filter, Bool.and_eq_true, List.elem_iff]
    constructor
    · rintro ⟨-, hxks, hxch⟩
      exact ⟨hxks, hxch⟩
    · rintro ⟨hxks, hxch⟩
      exact ⟨hns x hxks, hxks, hxch⟩
  rw [hperm.length_eq]
  simp only [List.length_singleton]
  omega

/-- Witness for C10: dependency keys `a` and `b` over `{a:1,b:1}`, shallow
comparison disabled; one `set` changing both keys fires the single
subscriber twice. -/
theorem multi_dep_signal_fires_once_per_changed_key_witness :
    callsTo
      (State.select (State.mk0 (JSVal.obj 0 [("a", JSVal.prim 1), ("b", JSVal.prim 1)]) 1)
        (Selector.readFresh ["a", "b"]) (some false)).2
      (State.set
        (State.subscribeAt
          (State.select (State.mk0 (JSVal.obj 0 [("a", JSVal.prim 1), ("b", JSVal.prim 1)]) 1)
            (Selector.readFresh ["a", "b"]) (some false)).1
          (State.select (State.mk0 (JSVal.obj 0 [("a", JSVal.prim 1), ("b", JSVal.prim 1)]) 1)
            (Selector.readFresh ["a", "b"]) (some false)).2 6)
        (fun _ c => some (JSVal.obj c [("a", JSVal.prim 2), ("b", JSVal.prim 2)], c + 1))).evs = 2 :=
  (multi_dep_signal_fires_once_per_changed_key
    (State.mk0 (JSVal.obj 0 [("a", JSVal.prim 1), ("b", JSVal.prim 1)]) 1) ["a", "b"] 6
    (fun _ c => some (JSVal.obj c [("a", JSVal.prim 2), ("b", JSVal.prim 2)], c + 1))
    (JSVal.obj 2 [("a", JSVal.prim 2), ("b", JSVal.prim 2)]) 3
    (by intro p hp; cases hp) (by decide) (by decide) (by decide) (by decide) (by decide)
    rfl).trans rfl


/-- C3 (amended): with `shallowCompare: false` the code performs no
comparison at all in `notify` — the condition `!opts.shallowCompare || …`
short-circuits — so the cached value is always overwritten with the fresh
selector result and every subscriber is invoked, even when the old and new
values are identity-equal. -/
theorem notify_shallow_disabled_always_fires (sg : Signal) (st : JSVal) (c : Nat)
    (hsc : sg.opts.shallowCompare = false) :
    (Signal.notify sg st c).calls = sg.subscriptions ∧
      (Signal.notify sg st c).sg.value = (Selector.eval sg.selector st c).1 := by
  rw [Signal.notify_gate_pass sg st c (Or.inl hsc)]
  exact ⟨rfl, rfl⟩

/-- Witness for the amended C3 at a concrete signal whose old and new
values are identity-equal (`5` and `5`): the subscriber list still fires. -/
theorem notify_shallow_disabled_always_fires_witness :
    (Signal.notify ⟨JSVal.prim 5, Selector.constPrim 5, ⟨false⟩, [7]⟩
        (JSVal.obj 0 []) 0).calls = [7] ∧
      (Signal.notify ⟨JSVal.prim 5, Selector.constPrim 5, ⟨false⟩, [7]⟩
        (JSVal.obj 0 []) 0).sg.value =
        (Selector.eval (Selector.constPrim 5) (JSVal.obj 0 []) 0).1 :=
  notify_shallow_disabled_always_fires
    ⟨JSVal.prim 5, Selector.constPrim 5, ⟨false⟩, [7]⟩ (JSVal.obj 0 []) 0 rfl

/-- Counterexample to C3 as stated: a store `{x: 1}`, a constant selector
with `shallowCompare: false`, one subscriber; a `set` replacing the state
object triggers `notify` with `oldValue` and `newValue` both `5` —
identity-equal — yet the subscriber is invoked once, where the claim
requires zero invocations (the code skips the comparison entirely instead
of comparing by identity). -/
theorem notify_shallow_disabled_identity_equal_cex :
    jsIs (JSVal.prim 5) (JSVal.prim 5) = true ∧
    callsTo
      (State.select (State.mk0 (JSVal.obj 0 [("x", JSVal.prim 1)]) 1)
        (Selector.constPrim 5) (some false)).2
      (State.set
        (State.subscribeAt
          (State.select (State.mk0 (JSVal.obj 0 [("x", JSVal.prim 1)]) 1)
            (Selector.constPrim 5) (some false)).1
          (State.select (State.mk0 (JSVal.obj 0 [("x", JSVal.prim 1)]) 1)
            (Selector.constPrim 5) (some false)).2 7)
        (fun _ c => some (JSVal.obj c [("x", JSVal.prim 1)], c + 1))).evs = 1 :=
  ⟨rfl, rfl⟩


/-- C5 (amended): an identity-selector signal records no dependency keys
and is subscribed to the generic `change` event, so every successful `set`
invokes its `notify` once; its subscribers are invoked exactly once per
`set` provided the new state is not shallow-equal to the signal's cached
value, and the cached value then becomes the new state object. -/
theorem whole_state_signal_notifies_once (s0 : State) (L : Nat)
    (u : Updater) (ns : JSVal) (c2 : Nat)
    (hwf : listenersBounded s0)
    (hu : u s0.state (State.select s0 Selector.whole none).1.fresh = some (ns, c2))
    (hne : shallowCompare (JSVal.obj s0.fresh (objFields s0.state)) ns = false) :
    callsTo (State.select s0 Selector.whole none).2
      (State.set
        (State.subscribeAt (State.select s0 Selector.whole none).1
          (State.select s0 Selector.whole none).2 L) u).evs = 1 ∧
    State.signalValue
      (State.set
        (State.subscribeAt (State.select s0 Selector.whole none).1
          (State.select s0 Selector.whole none).2 L) u).store
      (State.select s0 Selector.whole none).2 = ns := by
  rw [State.select_whole s0 none] at hu ⊢
  simp only at hu ⊢
  rw [State.subscribeAt_concat]
  rw [State.set_some
    ⟨s0.state, s0.listeners ++ [(Trigger.change, s0.signals.length)],
      s0.signals ++
        [Signal.subscribe
          ⟨JSVal.obj s0.fresh (objFields s0.state), Selector.whole, ⟨none.getD true⟩, []⟩ L],
      s0.fresh + 1⟩ u ns c2 hu]
  simp only
  set sg0 : Signal :=
    Signal.subscribe
      ⟨JSVal.obj s0.fresh (objFields s0.state), Selector.whole, ⟨none.getD true⟩, []⟩ L
    with hsg0
  set s1 : State :=
    ⟨ns, s0.listeners ++ [(Trigger.change, s0.signals.length)],
      s0.signals ++ [sg0], c2⟩ with hs1
  have hsg : s1.signals[s0.signals.length]? = some sg0 := by
    rw [hs1]
    exact List.getElem?_concat_length _ _
  obtain ⟨c₁, hval, hcalls⟩ := dispatchEvent_hit s1 Trigger.change s0.signals.length
    s0.listeners [] sg0 (by rw [hs1]) (fun p hp _ => Nat.ne_of_lt (hwf p hp))
    (by intro p hp; cases hp) hsg
  have hgate : Signal.notify sg0 s1.state c₁ =
      ⟨{ sg0 with value := ns }, c₁, [L]⟩ := by
    rw [Signal.notify_gate_pass sg0 s1.state c₁ (Or.inr (by
      rw [hs1, hsg0]
      exact hne))]
    rw [hs1, hsg0]
    rfl
  rw [hgate] at hval hcalls
  have hquiet := setLoop_quiet s0.state (s1.dispatchEvent Trigger.change).1 (objKeys ns)
    s0.signals.length (by
      intro k' hk'
      left
      intro p hp hp1
      rw [dispatchEvent_listeners, hs1] at hp
      rcases List.mem_append.mp hp with hpL | hpR
      · exact Nat.ne_of_lt (hwf p hpL)
      · rcases List.mem_singleton.mp hpR with rfl
        cases hp1)
  constructor
  · rw [callsTo_append, hcalls, hquiet.2]
    rfl
  · unfold State.signalValue
    rw [hquiet.1, hval]
    rfl

/-- Witness for the amended C5: `{x: 1}` replaced by `{x: 2}` (not
shallow-equal to the cached whole-state view): exactly one subscriber call
and the cached value becomes the new state. -/
theorem whole_state_signal_notifies_once_witness :
    callsTo
      (State.select (State.mk0 (JSVal.obj 0 [("x", JSVal.prim 1)]) 1) Selector.whole none).2
      (State.set
        (State.subscribeAt
          (State.select (State.mk0 (JSVal.obj 0 [("x", JSVal.prim 1)]) 1) Selector.whole none).1
          (State.select (State.mk0 (JSVal.obj 0 [("x", JSVal.prim 1)]) 1) Selector.whole none).2
          4)
        (fun _ c => some (JSVal.obj c [("x", JSVal.prim 2)], c + 1))).evs = 1 ∧
    State.signalValue
      (State.set
        (State.subscribeAt
          (State.select (State.mk0 (JSVal.obj 0 [("x", JSVal.prim 1)]) 1) Selector.whole none).1
          (State.select (State.mk0 (JSVal.obj 0 [("x", JSVal.prim 1)]) 1) Selector.whole none).2
          4)
        (fun _ c => some (JSVal.obj c [("x", JSVal.prim 2)], c + 1))).store
      (State.select (State.mk0 (JSVal.obj 0 [("x", JSVal.prim 1)]) 1) Selector.whole none).2 =
      JSVal.obj 2 [("x", JSVal.prim 2)] :=
  whole_state_signal_notifies_once (State.mk0 (JSVal.obj 0 [("x", JSVal.prim 1)]) 1) 4
    (fun _ c => some (JSVal.obj c [("x", JSVal.prim 2)], c + 1))
    (JSVal.obj 2 [("x", JSVal.prim 2)]) 3
    (by intro p hp; cases hp) rfl rfl

/-- Counterexample to C5 as stated: identity selector with the default
shallow comparison over `{x: 1}`; the updater returns a fresh object with
the same field values.  The state object is replaced (not identity-equal
to the old one), the signal's `notify` runs on the generic `change` event,
but the new state is shallow-equal to the cached view, so zero subscribers
are invoked where the claim requires exactly one. -/
theorem whole_state_signal_shallow_equal_replacement_cex :
    jsIs (JSVal.obj 0 [("x", JSVal.prim 1)]) (JSVal.obj 2 [("x", JSVal.prim 1)]) = false ∧
    (State.set
      (State.subscribeAt
        (State.select (State.mk0 (JSVal.obj 0 [("x", JSVal.prim 1)]) 1) Selector.whole none).1
        (State.select (State.mk0 (JSVal.obj 0 [("x", JSVal.prim 1)]) 1) Selector.whole none).2
        4)
      (fun _ c => some (JSVal.obj c [("x", JSVal.prim 1)], c + 1))).store.state =
      JSVal.obj 2 [("x", JSVal.prim 1)] ∧
    callsTo
      (State.select (State.mk0 (JSVal.obj 0 [("x", JSVal.prim 1)]) 1) Selector.whole none).2
      (State.set
        (State.subscribeAt
          (State.select (State.mk0 (JSVal.obj 0 [("x", JSVal.prim 1)]) 1) Selector.whole none).1
          (State.select (State.mk0 (JSVal.obj 0 [("x", JSVal.prim 1)]) 1) Selector.whole none).2
          4)
        (fun _ c => some (JSVal.obj c [("x", JSVal.prim 1)], c + 1))).evs = 0 :=
  ⟨rfl, rfl, rfl⟩


/-- Two empty-keyed objects (e.g. two empty arrays) are always
shallow-equal, whatever their identities. -/
theorem shallowCompare_empty_objs (i j : Nat) :
    shallowCompare (JSVal.obj i []) (JSVal.obj j []) = true := by
  unfold shallowCompare
  split
  · rfl
  · rfl

/-- C4 (amended): with the default shallow comparison and a selector that
reads a tracked field but returns a newly-constructed empty array on every
invocation, a `set` that changes the tracked field re-invokes the selector
but does not notify — the two empty arrays are shallow-equal — and the
signal's cached value is NOT updated: it keeps the array produced at
`select` time. -/
theorem fresh_array_selector_no_notify_no_update (s0 : State) (k : String) (L : Nat)
    (u : Updater) (ns : JSVal) (c2 : Nat)
    (hwf : listenersBounded s0)
    (hk : hasField s0.state k = true)
    (hu : u s0.state (State.select s0 (Selector.readFresh [k]) none).1.fresh =
      some (ns, c2))
    (hmem : k ∈ objKeys ns)
    (hnd : (objKeys ns).Nodup)
    (hch : jsIs (getField ns k) (getField s0.state k) = false) :
    callsTo (State.select s0 (Selector.readFresh [k]) none).2
      (State.set
        (State.subscribeAt (State.select s0 (Selector.readFresh [k]) none).1
          (State.select s0 (Selector.readFresh [k]) none).2 L) u).evs = 0 ∧
    State.signalValue
      (State.set
        (State.subscribeAt (State.select s0 (Selector.readFresh [k]) none).1
          (State.select s0 (Selector.readFresh [k]) none).2 L) u).store
      (State.select s0 (Selector.readFresh [k]) none).2 = JSVal.obj s0.fresh [] := by
  rw [State.select_readFresh s0 [k] none (by intro k' hk'; rw [List.mem_singleton.mp hk']; exact hk)
    (List.nodup_singleton k) (by simp)] at hu ⊢
  simp only [List.map_cons, List.map_nil] at hu ⊢
  rw [State.subscribeAt_concat]
  rw [State.set_some
    ⟨s0.state, s0.listeners ++ [(Trigger.key k, s0.signals.length)],
      s0.signals ++
        [Signal.subscribe
          ⟨JSVal.obj s0.fresh [], Selector.readFresh [k], ⟨none.getD true⟩, []⟩ L],
      s0.fresh + 1⟩ u ns c2 hu]
  simp only
  set sg0 : Signal :=
    Signal.subscribe ⟨JSVal.obj s0.fresh [], Selector.readFresh [k], ⟨none.getD true⟩, []⟩ L
    with hsg0
  set s1 : State :=
    ⟨ns, s0.listeners ++ [(Trigger.key k, s0.signals.length)],
      s0.signals ++ [sg0], c2⟩ with hs1
  -- the generic change dispatch does not reach this signal
  have hnoChange : ∀ p ∈ s1.listeners, p.1 = Trigger.change → p.2 ≠ s0.signals.length := by
    intro p hp hp1
    rw [hs1] at hp
    rcases List.mem_append.mp hp with hpL | hpR
    · exact Nat.ne_of_lt (hwf p hpL)
    · rcases List.mem_singleton.mp hpR with rfl
      cases hp1
  have hd := dispatchEvent_noHit s1 Trigger.change s0.signals.length hnoChange
  rw [callsTo_append, hd.2]
  -- the change:k dispatch notifies once, but the gate blocks it
  have hsg : (s1.dispatchEvent Trigger.change).1.signals[s0.signals.length]? = some sg0 := by
    rw [hd.1, hs1]
    exact List.getElem?_concat_length _ _
  have hch1 : jsIs (getField (s1.dispatchEvent Trigger.change).1.state k)
      (getField s0.state k) = false := by
    rw [dispatchEvent_state, hs1]
    exact hch
  obtain ⟨c₁, hval, hcalls⟩ := setLoop_oneKey s0.state (s1.dispatchEvent Trigger.change).1
    (objKeys ns) s0.signals.length k s0.listeners sg0
    (by rw [dispatchEvent_listeners, hs1]) (fun p hp => Nat.ne_of_lt (hwf p hp))
    hnd hmem hch1 hsg
  have hblock : Signal.notify sg0 (s1.dispatchEvent Trigger.change).1.state c₁ =
      ⟨sg0, c₁ + 1, []⟩ := by
    rw [Signal.notify_gate_block sg0 _ c₁ rfl (by
      rw [hsg0]
      exact shallowCompare_empty_objs s0.fresh c₁)]
    rfl
  rw [hblock] at hval hcalls
  constructor
  · rw [hcalls]
    rfl
  · unfold State.signalValue
    rw [hval]
    rfl

/-- Witness for the amended C4: `{v: 1} → {v: 2}` with the fresh-empty-
array selector: no subscriber call, cached value stays the `select`-time
array (identity `1`). -/
theorem fresh_array_selector_no_notify_no_update_witness :
    callsTo
      (State.select (State.mk0 (JSVal.obj 0 [("v", JSVal.prim 1)]) 1)
        (Selector.readFresh ["v"]) none).2
      (State.set
        (State.subscribeAt
          (State.select (State.mk0 (JSVal.obj 0 [("v", JSVal.prim 1)]) 1)
            (Selector.readFresh ["v"]) none).1
          (State.select (State.mk0 (JSVal.obj 0 [("v", JSVal.prim 1)]) 1)
            (Selector.readFresh ["v"]) none).2 3)
        (fun _ c => some (JSVal.obj c [("v", JSVal.prim 2)], c + 1))).evs = 0 ∧
    State.signalValue
      (State.set
        (State.subscribeAt
          (State.select (State.mk0 (JSVal.obj 0 [("v", JSVal.prim 1)]) 1)
            (Selector.readFresh ["v"]) none).1
          (State.select (State.mk0 (JSVal.obj 0 [("v", JSVal.prim 1)]) 1)
            (Selector.readFresh ["v"]) none).2 3)
        (fun _ c => some (JSVal.obj c [("v", JSVal.prim 2)], c + 1))).store
      (State.select (State.mk0 (JSVal.obj 0 [("v", JSVal.prim 1)]) 1)
        (Selector.readFresh ["v"]) none).2 = JSVal.obj 1 [] :=
  fresh_array_selector_no_notify_no_update
    (State.mk0 (JSVal.obj 0 [("v", JSVal.prim 1)]) 1) "v" 3
    (fun _ c => some (JSVal.obj c [("v", JSVal.prim 2)], c + 1))
    (JSVal.obj 2 [("v", JSVal.prim 2)]) 3
    (by intro p hp; cases hp) rfl rfl (by decide) (by decide) rfl

/-- Counterexample to C4 as stated: in the same scenario the claim asserts
the cached value is updated to the newly produced array.  The selector's
notify-time product is the fresh array with identity `3`, yet the cached
value after the `set` is still the `select`-time array with identity `1` —
the assignment `this.#value = newValue` sits inside the equality gate and
never runs when the values are shallow-equal. -/
theorem fresh_array_selector_value_not_updated_cex :
    (Selector.eval (Selector.readFresh ["v"]) (JSVal.obj 2 [("v", JSVal.prim 2)]) 3).1 =
      JSVal.obj 3 [] ∧
    jsIs (JSVal.obj 1 []) (JSVal.obj 3 []) = false ∧
    State.signalValue
      (State.set
        (State.subscribeAt
          (State.select (State.mk0 (JSVal.obj 0 [("v", JSVal.prim 1)]) 1)
            (Selector.readFresh ["v"]) none).1
          (State.select (State.mk0 (JSVal.obj 0 [("v", JSVal.prim 1)]) 1)
            (Selector.readFresh ["v"]) none).2 3)
        (fun _ c => some (JSVal.obj c [("v", JSVal.prim 2)], c + 1))).store
      (State.select (State.mk0 (JSVal.obj 0 [("v", JSVal.prim 1)]) 1)
        (Selector.readFresh ["v"]) none).2 = JSVal.obj 1 [] :=
  ⟨rfl, rfl, rfl⟩


theorem jsIs_false_of_shallowCompare_false {a b : JSVal}
    (h : shallowCompare a b = false) : jsIs b a = false := by
  cases hj : jsIs b a
  · rfl
  · have : jsIs a b = true := by rw [jsIs_symm]; exact hj
    rw [shallowCompare_of_jsIs this] at h
    cases h

/-- C1 (amended): for a single-field selector, a `set` whose updater
changes the selected field from `a` to `b` where `a` and `b` are not
shallow-equal (for non-object values: exactly when not identity-equal)
invokes the signal's subscriber exactly once, and the signal's value
afterwards is `selector(newState)`; a subsequent `set` that leaves the
field's value identity-unchanged invokes no further subscriber. -/
theorem set_changed_field_notifies_once (s0 : State) (k : String) (L : Nat)
    (u u2 : Updater) (ns ns2 : JSVal) (c2 c3 : Nat)
    (hwf : listenersBounded s0)
    (hk : hasField s0.state k = true)
    (hu : u s0.state s0.fresh = some (ns, c2))
    (hmem : k ∈ objKeys ns)
    (hnd : (objKeys ns).Nodup)
    (hch : shallowCompare (getField s0.state k) (getField ns k) = false)
    (hu2 : u2
      (State.set
        (State.subscribeAt (State.select s0 (Selector.field k) none).1
          (State.select s0 (Selector.field k) none).2 L) u).store.state
      (State.set
        (State.subscribeAt (State.select s0 (Selector.field k) none).1
          (State.select s0 (Selector.field k) none).2 L) u).store.fresh =
      some (ns2, c3))
    (hsame : jsIs (getField ns2 k) (getField ns k) = true) :
    callsTo (State.select s0 (Selector.field k) none).2
      (State.set
        (State.subscribeAt (State.select s0 (Selector.field k) none).1
          (State.select s0 (Selector.field k) none).2 L) u).evs = 1 ∧
    State.signalValue
      (State.set
        (State.subscribeAt (State.select s0 (Selector.field k) none).1
          (State.select s0 (Selector.field k) none).2 L) u).store
      (State.select s0 (Selector.field k) none).2 = getField ns k ∧
    callsTo (State.select s0 (Selector.field k) none).2
      (State.set
        (State.set
          (State.subscribeAt (State.select s0 (Selector.field k) none).1
            (State.select s0 (Selector.field k) none).2 L) u).store u2).evs = 0 := by
  rw [State.select_field s0 k none hk] at hu2 ⊢
  simp only at hu2 ⊢
  rw [State.subscribeAt_concat] at hu2 ⊢
  rw [State.set_some
    ⟨s0.state, s0.listeners ++ [(Trigger.key k, s0.signals.length)],
      s0.signals ++
        [Signal.subscribe ⟨getField s0.state k, Selector.field k, ⟨none.getD true⟩, []⟩ L],
      s0.fresh⟩ u ns c2 hu] at hu2 ⊢
  simp only at hu2 ⊢
  set sg0 : Signal :=
    Signal.subscribe ⟨getField s0.state k, Selector.field k, ⟨none.getD true⟩, []⟩ L
    with hsg0
  set s1 : State :=
    ⟨ns, s0.listeners ++ [(Trigger.key k, s0.signals.length)],
      s0.signals ++ [sg0], c2⟩ with hs1
  -- analysis of the first set's cascade
  have hch' : jsIs (getField ns k) (getField s0.state k) = false :=
    jsIs_false_of_shallowCompare_false hch
  have hnoChange : ∀ p ∈ s1.listeners, p.1 = Trigger.change → p.2 ≠ s0.signals.length := by
    intro p hp hp1
    rw [hs1] at hp
    rcases List.mem_append.mp hp with hpL | hpR
    · exact Nat.ne_of_lt (hwf p hpL)
    · rcases List.mem_singleton.mp hpR with rfl
      cases hp1
  have hd := dispatchEvent_noHit s1 Trigger.change s0.signals.length hnoChange
  have hsg : (s1.dispatchEvent Trigger.change).1.signals[s0.signals.length]? = some sg0 := by
    rw [hd.1, hs1]
    exact List.getElem?_concat_length _ _
  have hch1 : jsIs (getField (s1.dispatchEvent Trigger.change).1.state k)
      (getField s0.state k) = false := by
    rw [dispatchEvent_state, hs1]
    exact hch'
  obtain ⟨c₁, hval, hcalls⟩ := setLoop_oneKey s0.state (s1.dispatchEvent Trigger.change).1
    (objKeys ns) s0.signals.length k s0.listeners sg0
    (by rw [dispatchEvent_listeners, hs1]) (fun p hp => Nat.ne_of_lt (hwf p hp))
    hnd hmem hch1 hsg
  have hpass : Signal.notify sg0 (s1.dispatchEvent Trigger.change).1.state c₁ =
      ⟨⟨getField ns k, Selector.field k, ⟨none.getD true⟩, [L]⟩, c₁, [L]⟩ := by
    rw [Signal.notify_gate_pass sg0 _ c₁ (Or.inr (by
      rw [hsg0, dispatchEvent_state, hs1]
      exact hch))]
    rw [hsg0, dispatchEvent_state, hs1]
    rfl
  rw [hpass] at hval hcalls
  refine ⟨?_, ?_, ?_⟩
  · rw [callsTo_append, hd.2, hcalls]
    rfl
  · unfold State.signalValue
    rw [hval]
    rfl
  · -- second set: the selected field is identity-unchanged
    have hst3 : (setLoop s0.state (s1.dispatchEvent Trigger.change).1 (objKeys ns)).1.state =
        ns := by
      rw [setLoop_state, dispatchEvent_state, hs1]
    have hl3 : (setLoop s0.state (s1.dispatchEvent Trigger.change).1 (objKeys ns)).1.listeners =
        s0.listeners ++ [(Trigger.key k, s0.signals.length)] := by
      rw [setLoop_listeners, dispatchEvent_listeners, hs1]
    rw [State.set_some
      ((setLoop s0.state (s1.dispatchEvent Trigger.change).1 (objKeys ns)).1) u2 ns2 c3 hu2]
    simp only
    rw [callsTo_append]
    rw [hst3, hl3]
    set sR : State := ⟨ns2, s0.listeners ++ [(Trigger.key k, s0.signals.length)],
      (setLoop s0.state (s1.dispatchEvent Trigger.change).1 (objKeys ns)).1.signals, c3⟩
      with hsR
    have hnoChange2 : ∀ p ∈ sR.listeners, p.1 = Trigger.change →
        p.2 ≠ s0.signals.length := by
      intro p hp hp1
      rw [hsR] at hp
      rcases List.mem_append.mp hp with hpL | hpR
      · exact Nat.ne_of_lt (hwf p hpL)
      · rcases List.mem_singleton.mp hpR with rfl
        cases hp1
    have hd2 := dispatchEvent_noHit sR Trigger.change s0.signals.length hnoChange2
    rw [hd2.2]
    have hq := setLoop_quiet ns (sR.dispatchEvent Trigger.change).1 (objKeys ns2)
      s0.signals.length (by
        intro k' hk'
        by_cases hkk : k' = k
        · subst hkk
          right
          rw [dispatchEvent_state, hsR]
          exact hsame
        · left
          intro p hp hp1
          rw [dispatchEvent_listeners, hsR] at hp
          rcases List.mem_append.mp hp with hpL | hpR
          · exact Nat.ne_of_lt (hwf p hpL)
          · rcases List.mem_singleton.mp hpR with rfl
            cases hp1
            exact absurd rfl (Ne.symm hkk))
    rw [hq.2]

/-- Witness for the amended C1: the spec's concrete scenario
`Store({value: 1})`, `select(s => s.value)`, `set` to `2` (one call, value
`2`), then `set` to `2` again (no further call). -/
theorem set_changed_field_notifies_once_witness :
    callsTo
      (State.select (State.mk0 (JSVal.obj 0 [("value", JSVal.prim 1)]) 1)
        (Selector.field "value") none).2
      (State.set
        (State.subscribeAt
          (State.select (State.mk0 (JSVal.obj 0 [("value", JSVal.prim 1)]) 1)
            (Selector.field "value") none).1
          (State.select (State.mk0 (JSVal.obj 0 [("value", JSVal.prim 1)]) 1)
            (Selector.field "value") none).2 0)
        (fun _ c => some (JSVal.obj c [("value", JSVal.prim 2)], c + 1))).evs = 1 ∧
    State.signalValue
      (State.set
        (State.subscribeAt
          (State.select (State.mk0 (JSVal.obj 0 [("value", JSVal.prim 1)]) 1)
            (Selector.field "value") none).1
          (State.select (State.mk0 (JSVal.obj 0 [("value", JSVal.prim 1)]) 1)
            (Selector.field "value") none).2 0)
        (fun _ c => some (JSVal.obj c [("value", JSVal.prim 2)], c + 1))).store
      (State.select (State.mk0 (JSVal.obj 0 [("value", JSVal.prim 1)]) 1)
        (Selector.field "value") none).2 = JSVal.prim 2 ∧
    callsTo
      (State.select (State.mk0 (JSVal.obj 0 [("value", JSVal.prim 1)]) 1)
        (Selector.field "value") none).2
      (State.set
        (State.set
          (State.subscribeAt
            (State.select (State.mk0 (JSVal.obj 0 [("value", JSVal.prim 1)]) 1)
              (Selector.field "value") none).1
            (State.select (State.mk0 (JSVal.obj 0 [("value", JSVal.prim 1)]) 1)
              (Selector.field "value") none).2 0)
          (fun _ c => some (JSVal.obj c [("value", JSVal.prim 2)], c + 1))).store
        (fun _ c => some (JSVal.obj c [("value", JSVal.prim 2)], c + 1))).evs = 0 :=
  set_changed_field_notifies_once (State.mk0 (JSVal.obj 0 [("value", JSVal.prim 1)]) 1)
    "value" 0
    (fun _ c => some (JSVal.obj c [("value", JSVal.prim 2)], c + 1))
    (fun _ c => some (JSVal.obj c [("value", JSVal.prim 2)], c + 1))
    (JSVal.obj 1 [("value", JSVal.prim 2)]) (JSVal.obj 2 [("value", JSVal.prim 2)]) 2 3
    (by intro p hp; cases hp) rfl rfl (by decide) (by decide) rfl rfl rfl

/-- Counterexample to C1 as stated: the selected field changes from one
empty array to a different (not identity-equal) empty array.  The claim's
hypothesis holds — `a` and `b` are not identity-equal — yet with the
default shallow comparison zero subscribers are invoked (the claim
requires exactly one) and the signal's value remains the old array rather
than `selector(newState)`. -/
theorem set_changed_field_shallow_equal_arrays_cex :
    jsIs (JSVal.obj 1 []) (JSVal.obj 3 []) = false ∧
    callsTo
      (State.select (State.mk0 (JSVal.obj 0 [("v", JSVal.obj 1 [])]) 2)
        (Selector.field "v") none).2
      (State.set
        (State.subscribeAt
          (State.select (State.mk0 (JSVal.obj 0 [("v", JSVal.obj 1 [])]) 2)
            (Selector.field "v") none).1
          (State.select (State.mk0 (JSVal.obj 0 [("v", JSVal.obj 1 [])]) 2)
            (Selector.field "v") none).2 0)
        (fun _ c => some (JSVal.obj c [("v", JSVal.obj (c + 1) [])], c + 2))).evs = 0 ∧
    State.signalValue
      (State.set
        (State.subscribeAt
          (State.select (State.mk0 (JSVal.obj 0 [("v", JSVal.obj 1 [])]) 2)
            (Selector.field "v") none).1
          (State.select (State.mk0 (JSVal.obj 0 [("v", JSVal.obj 1 [])]) 2)
            (Selector.field "v") none).2 0)
        (fun _ c => some (JSVal.obj c [("v", JSVal.obj (c + 1) [])], c + 2))).store
      (State.select (State.mk0 (JSVal.obj 0 [("v", JSVal.obj 1 [])]) 2)
        (Selector.field "v") none).2 = JSVal.obj 1 [] :=
  ⟨rfl, rfl, rfl⟩
